import Mathlib

/-!
# Verification of `openmc/deplete/atom_number.py` (`AtomNumber`)

Shallow embedding of the `AtomNumber` class: a labeled two-dimensional
numeric store mapping (material, nuclide) pairs to atom quantities.

Modelling conventions:
* Python `dict` (insertion-ordered, update-in-place) is an association
  list `List (String × α)` built with `dictInsert` (replacing an existing
  key keeps its position; a new key is appended) and read with
  `dictLookup`.
* numpy `float64` values are modelled as `ℚ` (exact arithmetic); division
  by zero is total in `ℚ` (`x / 0 = 0`), where numpy would produce
  `nan`/`inf` with a warning — in both semantics a division by a zero
  volume does not return the stored density.
* A numpy integer index into an axis of length `n` accepts any integer in
  `[-n, n)`; a negative index `i` addresses position `n + i`; anything
  outside that window raises `IndexError`.  This is `npIndex`.
* A Python-level failure (`KeyError` from a dict lookup, `IndexError` or
  shape mismatch from numpy) is an `Except AtomErr` error value: the
  error taxonomy of the specification (`UnknownMaterial`,
  `UnknownNuclide`, `IndexOutOfRange`, `ShapeMismatch`).
* An axis argument is `Idx.name s` (a string, resolved through the index
  dict) or `Idx.pos i` (an integer, passed through unresolved).  An
  `openmc.Material` argument is resolved by `_get_mat_index` to the
  string `str(mat.id)` and then behaves exactly like `Idx.name`; it is
  not modelled separately.  The slice arguments accepted by
  `__getitem__`/`__setitem__` are exercised by the source only through
  `get_mat_slice`/`set_mat_slice` (`self[mat, :self.n_nuc_burn]`), which
  are modelled directly.
* numpy slice assignment accepts a source of exactly the slice's length
  or a length-one source (broadcast); any other length is a shape
  mismatch.  Scalar (0-d) assignment to a slice is not exercised by the
  claims and is not modelled.
-/

/-- Error taxonomy of the specification for Python-level failures. -/
inductive AtomErr where
  | unknownMaterial (s : String)
  | unknownNuclide (s : String)
  | indexOutOfRange
  | shapeMismatch
deriving DecidableEq, Repr

/-- An axis argument: a symbolic name or an integer position. -/
inductive Idx where
  | name (s : String)
  | pos (i : Int)
deriving DecidableEq, Repr

instance {ε α : Type} [DecidableEq ε] [DecidableEq α] :
    DecidableEq (Except ε α) := fun x y =>
  match x, y with
  | .ok a, .ok b =>
      if h : a = b then .isTrue (by rw [h]) else .isFalse (by simp [h])
  | .error a, .error b =>
      if h : a = b then .isTrue (by rw [h]) else .isFalse (by simp [h])
  | .ok _, .error _ => .isFalse (by simp)
  | .error _, .ok _ => .isFalse (by simp)

/-- Python dict lookup: first (and only, keys being unique) binding of `k`. -/
def dictLookup {α : Type} (d : List (String × α)) (k : String) : Option α :=
  match d with
  | [] => none
  | (k0, v0) :: rest => if k0 = k then some v0 else dictLookup rest k

/-- Python dict update `d[k] = v`: replace in place if the key exists,
append otherwise (insertion order preserved). -/
def dictInsert {α : Type} (d : List (String × α)) (k : String) (v : α) :
    List (String × α) :=
  match d with
  | [] => [(k, v)]
  | (k0, v0) :: rest =>
      if k0 = k then (k, v) :: rest else (k0, v0) :: dictInsert rest k v

/-- `{x: i for i, x in enumerate(xs)}`, built left to right starting at
position `i`: the accumulator `d` is the dict built so far. -/
def buildIndexAux (d : List (String × Nat)) (i : Nat) :
    List String → List (String × Nat)
  | [] => d
  | x :: xs => buildIndexAux (dictInsert d x i) (i + 1) xs

/-- `{x: i for i, x in enumerate(xs)}` (later duplicates overwrite the
stored index, the key keeps its first-insertion position). -/
def buildIndex (xs : List String) : List (String × Nat) :=
  buildIndexAux [] 0 xs

/-- numpy integer indexing into an axis of length `n`: `i ∈ [0, n)` is
used as-is, `i ∈ [-n, 0)` addresses `n + i`, anything else is an
`IndexError` (`none`). -/
def npIndex (n : Nat) (i : Int) : Option Nat :=
  if 0 ≤ i ∧ i < (n : Int) then some i.toNat
  else if -(n : Int) ≤ i ∧ i < 0 then some ((n : Int) + i).toNat
  else none

/-- Python list/numpy slice `l[:k]` for an arbitrary (possibly negative)
integer bound `k`. -/
def pyTake (k : Int) (l : List ℚ) : List ℚ :=
  if 0 ≤ k then l.take k.toNat else l.take ((l.length : Int) + k).toNat

/-- The state of an `AtomNumber` object.

`index_mat`/`index_nuc` are the two index dicts, `volume` the per-material
volume array, `n_nuc_burn` the burnable-nuclide count (a Python `int`,
stored unvalidated), `number` the (materials × nuclides) quantity array
as a list of rows. -/
structure AtomNumber where
  index_mat : List (String × Nat)
  index_nuc : List (String × Nat)
  volume : List ℚ
  n_nuc_burn : Int
  number : List (List ℚ)
deriving DecidableEq, Repr

namespace AtomNumber

/-- The constructor's volume loop:
`for mat, val in volume.items(): if mat in self.index_mat:
self.volume[self.index_mat[mat]] = val`.  Items whose key is not in
`index_mat` are skipped without error or effect. -/
def applyVolumes (index_mat : List (String × Nat)) (acc : List ℚ) :
    List (String × ℚ) → List ℚ
  | [] => acc
  | kv :: rest =>
      match dictLookup index_mat kv.1 with
      | some ind => applyVolumes index_mat (acc.set ind kv.2) rest
      | none => applyVolumes index_mat acc rest

/-- `AtomNumber.__init__(local_mats, nuclides, volume, n_nuc_burn)`.
The `volume` dict argument is given as its item list (unique keys when
produced by a Python dict; the loop does last-wins either way, matching
dict construction). -/
def init (local_mats nuclides : List String) (volume : List (String × ℚ))
    (n_nuc_burn : Int) : AtomNumber :=
  let index_mat := buildIndex local_mats
  { index_mat := index_mat
    index_nuc := buildIndex nuclides
    volume := applyVolumes index_mat
      (List.replicate local_mats.length 1) volume
    n_nuc_burn := n_nuc_burn
    number := List.replicate local_mats.length
      (List.replicate nuclides.length 0) }

/-- `_get_mat_index`: a string is resolved through `index_mat` (a missing
key is a `KeyError`, the spec's `UnknownMaterial`); an integer is
returned as-is with no bounds validation. -/
def matIndex (a : AtomNumber) (m : Idx) : Except AtomErr Int :=
  match m with
  | .name s =>
      match dictLookup a.index_mat s with
      | some i => .ok (i : Int)
      | none => .error (.unknownMaterial s)
  | .pos i => .ok i

/-- `if isinstance(nuc, str): nuc = self.index_nuc[nuc]` — a string is
resolved through `index_nuc` (missing key: the spec's `UnknownNuclide`);
an integer is passed through unresolved. -/
def nucIndex (a : AtomNumber) (n : Idx) : Except AtomErr Int :=
  match n with
  | .name s =>
      match dictLookup a.index_nuc s with
      | some i => .ok (i : Int)
      | none => .error (.unknownNuclide s)
  | .pos i => .ok i

/-- The entry of the quantity array at row `p`, column `q` (both already
valid positions); out-of-range reads default to `0` and only occur under
a bounds proof in the development. -/
def entry (a : AtomNumber) (p q : Nat) : ℚ :=
  (a.number.getD p []).getD q 0

/-- `__getitem__` for scalar (name/position) axis arguments:
resolve the material, resolve the nuclide, then the bounds-checked numpy
access `self.number[mat, nuc]`. -/
def getItem (a : AtomNumber) (m n : Idx) : Except AtomErr ℚ := do
  let mi ← a.matIndex m
  let ni ← a.nucIndex n
  match npIndex a.number.length mi with
  | none => .error .indexOutOfRange
  | some p =>
      match npIndex (a.number.getD p []).length ni with
      | none => .error .indexOutOfRange
      | some q => .ok (a.entry p q)

/-- `__setitem__` for scalar (name/position) axis arguments:
resolve both axes, then the bounds-checked numpy write
`self.number[mat, nuc] = val`. -/
def setItem (a : AtomNumber) (m n : Idx) (val : ℚ) :
    Except AtomErr AtomNumber := do
  let mi ← a.matIndex m
  let ni ← a.nucIndex n
  match npIndex a.number.length mi with
  | none => .error .indexOutOfRange
  | some p =>
      match npIndex (a.number.getD p []).length ni with
      | none => .error .indexOutOfRange
      | some q =>
          .ok { a with
                number := a.number.set p ((a.number.getD p []).set q val) }

/-- `n_nuc` property: `len(self.index_nuc)`. -/
def n_nuc (a : AtomNumber) : Nat := a.index_nuc.length

/-- `burnable_nuclides` property: names whose stored index is
`< n_nuc_burn`, in dict iteration order. -/
def burnable_nuclides (a : AtomNumber) : List String :=
  (a.index_nuc.filter (fun kv => (kv.2 : Int) < a.n_nuc_burn)).map
    (fun kv => kv.1)

/-- `get_mat_volume`: resolve the material, read `self.volume[mat]`
(bounds-checked numpy access). -/
def get_mat_volume (a : AtomNumber) (m : Idx) : Except AtomErr ℚ := do
  let mi ← a.matIndex m
  match npIndex a.volume.length mi with
  | none => .error .indexOutOfRange
  | some p => .ok (a.volume.getD p 0)

/-- `get_atom_density`: `self[mat, nuc] / self.volume[mat]` (the table
read happens first, then the volume read, as in the source line). -/
def get_atom_density (a : AtomNumber) (m n : Idx) : Except AtomErr ℚ := do
  let mi ← a.matIndex m
  let ni ← a.nucIndex n
  let x ← a.getItem (.pos mi) (.pos ni)
  match npIndex a.volume.length mi with
  | none => .error .indexOutOfRange
  | some p => .ok (x / a.volume.getD p 0)

/-- `set_atom_density`: `self[mat, nuc] = val * self.volume[mat]` (the
right-hand side — including the volume read — is evaluated before the
write). -/
def set_atom_density (a : AtomNumber) (m n : Idx) (val : ℚ) :
    Except AtomErr AtomNumber := do
  let mi ← a.matIndex m
  let ni ← a.nucIndex n
  match npIndex a.volume.length mi with
  | none => .error .indexOutOfRange
  | some p => a.setItem (.pos mi) (.pos ni) (val * a.volume.getD p 0)

/-- The barn-cm conversion factor `1.0e-24` as an exact rational. -/
def barnScale : ℚ := 1 / 10 ^ 24

/-- Effectful map over a list in the `Except` monad, modelling a Python
comprehension whose body may raise. -/
def exceptMap {α β : Type} (f : α → Except AtomErr β) :
    List α → Except AtomErr (List β)
  | [] => .ok []
  | x :: xs => do
      let y ← f x
      let ys ← exceptMap f xs
      pure (y :: ys)

/-- `get_atom_densities`: resolve the material, compute
`normalization = (1.0e-24 if units == 'atom/b-cm' else 1.0) / self.volume[mat]`,
then the dict comprehension
`{name: normalization * self[mat, nuc] for name, nuc in self.index_nuc.items()}`
in dict iteration order. -/
def get_atom_densities (a : AtomNumber) (m : Idx)
    (units : String := "atom/b-cm") : Except AtomErr (List (String × ℚ)) := do
  let mi ← a.matIndex m
  match npIndex a.volume.length mi with
  | none => .error .indexOutOfRange
  | some p =>
      let normalization :=
        (if units = "atom/b-cm" then barnScale else 1) / a.volume.getD p 0
      exceptMap (fun kv => do
        let x ← a.getItem (.pos mi) (.pos (kv.2 : Int))
        pure (kv.1, normalization * x)) a.index_nuc

/-- `get_mat_slice`: resolve the material, return
`self[mat, :self.n_nuc_burn]` (numpy row slice; the row access is
bounds-checked, the slice itself never faults). -/
def get_mat_slice (a : AtomNumber) (m : Idx) : Except AtomErr (List ℚ) := do
  let mi ← a.matIndex m
  match npIndex a.number.length mi with
  | none => .error .indexOutOfRange
  | some p => .ok (pyTake a.n_nuc_burn (a.number.getD p []))

/-- `set_mat_slice`: resolve the material, assign
`self[mat, :self.n_nuc_burn] = val`.  The numpy assignment requires
`val` to have the slice's length, or length one (broadcast); any other
length is a shape mismatch. -/
def set_mat_slice (a : AtomNumber) (m : Idx) (val : List ℚ) :
    Except AtomErr AtomNumber := do
  let mi ← a.matIndex m
  match npIndex a.number.length mi with
  | none => .error .indexOutOfRange
  | some p =>
      let row := a.number.getD p []
      let k := (pyTake a.n_nuc_burn row).length
      if val.length = k then
        .ok { a with number := a.number.set p (val ++ row.drop k) }
      else if val.length = 1 then
        .ok { a with
              number :=
                a.number.set p (List.replicate k (val.getD 0 0) ++ row.drop k) }
      else
        .error .shapeMismatch

/-- `set_density`: `for i, density_slice in enumerate(total_density):
self.set_mat_slice(i, density_slice)` — the helper carries the running
index `i`. -/
def setDensityAux (a : AtomNumber) (i : Nat) :
    List (List ℚ) → Except AtomErr AtomNumber
  | [] => .ok a
  | v :: rest => do
      let a1 ← a.set_mat_slice (.pos (i : Int)) v
      setDensityAux a1 (i + 1) rest

/-- `set_density(total_density)`. -/
def set_density (a : AtomNumber) (total_density : List (List ℚ)) :
    Except AtomErr AtomNumber :=
  setDensityAux a 0 total_density

/-- The row of the quantity table actually addressed by a material
argument, when both the name resolution and the numpy bounds check
succeed. -/
def matPos (a : AtomNumber) (m : Idx) : Option Nat :=
  match a.matIndex m with
  | .ok mi => npIndex a.number.length mi
  | .error _ => none

/-- The column of row `p` actually addressed by a nuclide argument. -/
def nucPos (a : AtomNumber) (p : Nat) (n : Idx) : Option Nat :=
  match a.nucIndex n with
  | .ok ni => npIndex (a.number.getD p []).length ni
  | .error _ => none

/-- The frame every write operation must preserve: both index dicts, the
volume table, the burnable count, and the quantity table's shape (row
count and every row length). -/
def framePreserved (a a2 : AtomNumber) : Prop :=
  a2.index_mat = a.index_mat ∧ a2.index_nuc = a.index_nuc
  ∧ a2.volume = a.volume ∧ a2.n_nuc_burn = a.n_nuc_burn
  ∧ a2.number.map List.length = a.number.map List.length

end AtomNumber

/-! ## Basic list and dict lemmas -/

theorem getD_set_self {α : Type} (l : List α) (i : Nat) (v d : α)
    (h : i < l.length) : (l.set i v).getD i d = v := by
  simp [List.getD_eq_getElem?_getD, List.getElem?_set_self h]

theorem getD_set_ne {α : Type} (l : List α) (i j : Nat) (v d : α)
    (h : i ≠ j) : (l.set i v).getD j d = l.getD j d := by
  simp [List.getD_eq_getElem?_getD, List.getElem?_set_ne h]

theorem set_getD_self {α : Type} (l : List α) (i : Nat) (d : α)
    (h : i < l.length) : l.set i (l.getD i d) = l := by
  apply List.ext_getElem?
  intro j
  rcases eq_or_ne i j with rfl | hij
  · rw [List.getElem?_set_self h, List.getD_eq_getElem?_getD]
    cases hx : l[i]? with
    | none => exact absurd (List.getElem?_eq_some_iff.2 ⟨h, rfl⟩) (by simp [hx])
    | some x => simp
  · exact List.getElem?_set_ne hij

theorem getD_replicate {α : Type} (n i : Nat) (x d : α) (h : i < n) :
    (List.replicate n x).getD i d = x := by
  simp [List.getD_eq_getElem?_getD, List.getElem?_replicate, h]

theorem npIndex_lt {n : Nat} {i : Int} {p : Nat} (h : npIndex n i = some p) :
    p < n := by
  unfold npIndex at h
  split at h
  · rename_i h1
    cases h
    omega
  · split at h
    · rename_i h1 h2
      cases h
      omega
    · exact absurd h (by simp)

theorem npIndex_pos_self {n : Nat} {p : Nat} (h : p < n) :
    npIndex n (p : Int) = some p := by
  unfold npIndex
  rw [if_pos (by omega)]
  simp

theorem dictLookup_dictInsert_self {α : Type} (d : List (String × α))
    (k : String) (v : α) : dictLookup (dictInsert d k v) k = some v := by
  induction d with
  | nil => simp [dictInsert, dictLookup]
  | cons p rest ih =>
      obtain ⟨k0, v0⟩ := p
      by_cases hk : k0 = k
      · simp [dictInsert, dictLookup, hk]
      · simp [dictInsert, dictLookup, hk, ih]

theorem dictLookup_dictInsert_ne {α : Type} (d : List (String × α))
    (k k0 : String) (v : α) (h : k ≠ k0) :
    dictLookup (dictInsert d k v) k0 = dictLookup d k0 := by
  induction d with
  | nil => simp [dictInsert, dictLookup, h]
  | cons p rest ih =>
      obtain ⟨k1, v1⟩ := p
      by_cases hk : k1 = k
      · subst hk
        simp [dictInsert, dictLookup, h]
      · simp [dictInsert, dictLookup, hk, ih]

theorem mem_dictInsert {α : Type} {d : List (String × α)} {k : String}
    {v : α} {p : String × α} (h : p ∈ dictInsert d k v) :
    p = (k, v) ∨ p ∈ d := by
  induction d with
  | nil => simpa [dictInsert] using h
  | cons q rest ih =>
      obtain ⟨k0, v0⟩ := q
      by_cases hk : k0 = k
      · simp only [dictInsert, if_pos hk] at h
        rcases List.mem_cons.1 h with h1 | h1
        · exact Or.inl h1
        · exact Or.inr (List.mem_cons.2 (Or.inr h1))
      · simp only [dictInsert, if_neg hk] at h
        rcases List.mem_cons.1 h with h1 | h1
        · exact Or.inr (List.mem_cons.2 (Or.inl h1))
        · rcases ih h1 with h2 | h2
          · exact Or.inl h2
          · exact Or.inr (List.mem_cons.2 (Or.inr h2))

theorem dictLookup_mem {α : Type} {d : List (String × α)} {k : String}
    {v : α} (h : dictLookup d k = some v) : (k, v) ∈ d := by
  induction d with
  | nil => simp [dictLookup] at h
  | cons q rest ih =>
      obtain ⟨k0, v0⟩ := q
      by_cases hk : k0 = k
      · subst hk
        simp only [dictLookup, if_true, eq_self_iff_true,
          Option.some.injEq] at h
        subst h
        exact List.mem_cons_self _ _
      · simp only [dictLookup, if_neg hk] at h
        exact List.mem_cons.2 (Or.inr (ih h))

theorem dictLookup_length_fresh {α : Type} (d : List (String × α))
    (k : String) (v : α) (h : dictLookup d k = none) :
    (dictInsert d k v).length = d.length + 1 := by
  induction d with
  | nil => simp [dictInsert]
  | cons q rest ih =>
      obtain ⟨k0, v0⟩ := q
      by_cases hk : k0 = k
      · simp [dictLookup, hk] at h
      · simp only [dictLookup, if_neg hk] at h
        simp [dictInsert, hk, ih h]

/-- Every binding produced by `buildIndexAux` satisfies `P` as soon as the
accumulator's bindings do and the list elements (at their running
positions) do. -/
theorem buildIndexAux_mem (P : String → Nat → Prop) :
    ∀ (xs : List String) (d : List (String × Nat)) (i : Nat),
      (∀ p ∈ d, P p.1 p.2) →
      (∀ j (hj : j < xs.length), P (xs.get ⟨j, hj⟩) (i + j)) →
      ∀ p ∈ buildIndexAux d i xs, P p.1 p.2 := by
  intro xs
  induction xs with
  | nil => intro d i hd hxs p hp; exact hd p hp
  | cons x rest ih =>
      intro d i hd hxs p hp
      refine ih (dictInsert d x i) (i + 1) ?_ ?_ p hp
      · intro q hq
        rcases mem_dictInsert hq with h1 | h1
        · subst h1
          have := hxs 0 (by simp)
          simpa using this
        · exact hd q h1
      · intro j hj
        have := hxs (j + 1) (by simpa using Nat.succ_lt_succ hj)
        simpa [Nat.add_assoc, Nat.add_comm 1 j, Nat.add_left_comm] using this

/-- Every binding `(k, v)` of `buildIndex xs` has `v < xs.length` and
`xs` holds `k` at position `v` (the last occurrence of `k`). -/
theorem buildIndex_mem {xs : List String} {k : String} {v : Nat}
    (h : (k, v) ∈ buildIndex xs) : v < xs.length ∧ xs.getD v "" = k := by
  have := buildIndexAux_mem
    (fun s j => j < xs.length ∧ xs.getD j "" = s) xs [] 0
    (by intro p hp; simp at hp)
    (by
      intro j hj
      simp only [Nat.zero_add]
      exact ⟨hj, by
        simp [List.getD_eq_getElem?_getD, List.getElem?_eq_getElem hj]⟩)
    (k, v) h
  exact this

/-- The index mapping built by the constructor is injective on values:
two names resolving to the same position are the same name. -/
theorem buildIndex_lookup_inj {xs : List String} {k1 k2 : String} {v : Nat}
    (h1 : dictLookup (buildIndex xs) k1 = some v)
    (h2 : dictLookup (buildIndex xs) k2 = some v) : k1 = k2 := by
  have m1 := buildIndex_mem (dictLookup_mem h1)
  have m2 := buildIndex_mem (dictLookup_mem h2)
  rw [← m1.2, ← m2.2]

/-! ## Inversion and frame helpers for the operations -/

namespace AtomNumber

theorem matIndex_number_update (a : AtomNumber) (N : List (List ℚ))
    (m : Idx) : matIndex { a with number := N } m = a.matIndex m := rfl

theorem nucIndex_number_update (a : AtomNumber) (N : List (List ℚ))
    (n : Idx) : nucIndex { a with number := N } n = a.nucIndex n := rfl

/-- Inversion of a successful `setItem`: the resolved indices and the
exact shape of the updated state. -/
theorem setItem_ok_inv {a a' : AtomNumber} {m n : Idx} {v : ℚ}
    (h : a.setItem m n v = Except.ok a') :
    ∃ mi ni p q, a.matIndex m = Except.ok mi ∧
      a.nucIndex n = Except.ok ni ∧
      npIndex a.number.length mi = some p ∧
      npIndex (a.number.getD p []).length ni = some q ∧
      a' = { a with
             number := a.number.set p ((a.number.getD p []).set q v) } := by
  unfold setItem at h
  cases hm : a.matIndex m with
  | error e => rw [hm] at h; simp [Bind.bind, Except.bind] at h
  | ok mi =>
      rw [hm] at h
      simp only [Bind.bind, Except.bind] at h
      cases hn : a.nucIndex n with
      | error e => rw [hn] at h; simp at h
      | ok ni =>
          rw [hn] at h
          simp only at h
          cases hp : npIndex a.number.length mi with
          | none => rw [hp] at h; simp at h
          | some p =>
              rw [hp] at h
              simp only at h
              cases hq : npIndex (a.number.getD p []).length ni with
              | none => rw [hq] at h; simp at h
              | some q =>
                  rw [hq] at h
                  simp only [Except.ok.injEq] at h
                  exact ⟨mi, ni, p, q, rfl, rfl, hp, hq, h.symm⟩

end AtomNumber

/-! ## C1: set/get round-trip -/

/-- C1: for every instance, material selection `m`, nuclide selection `n`
(symbolic name or integer position) and value `v`, a successful
`__setitem__` of `v` at `(m, n)` followed by `__getitem__` at the same
`(m, n)` on the resulting instance returns exactly `v`. -/
theorem C1_set_get_roundtrip (a a' : AtomNumber) (m n : Idx) (v : ℚ)
    (h : a.setItem m n v = Except.ok a') :
    a'.getItem m n = Except.ok v := by
  obtain ⟨mi, ni, p, q, hm, hn, hp, hq, rfl⟩ := AtomNumber.setItem_ok_inv h
  have hplen : p < a.number.length := npIndex_lt hp
  have hrow : (a.number.set p ((a.number.getD p []).set q v)).getD p []
      = (a.number.getD p []).set q v := getD_set_self _ _ _ _ hplen
  unfold AtomNumber.getItem
  rw [AtomNumber.matIndex_number_update, hm]
  simp only [Bind.bind, Except.bind]
  rw [AtomNumber.nucIndex_number_update, hn]
  simp only [List.length_set, hp, hrow, hq, AtomNumber.entry]
  rw [getD_set_self _ _ _ _ (npIndex_lt hq)]

/-! ## C5: unknown symbolic names fail with the dedicated error -/

/-- C5: a string material name missing from `index_mat` makes every
accessor fail immediately with `UnknownMaterial`; a string nuclide name
missing from `index_nuc` makes every nuclide-taking accessor fail
immediately with `UnknownNuclide` (the material argument is resolved
first, so its resolution must succeed for the nuclide error to surface).
The `Except` model returns the error value to the caller directly: there
is no retry or recovery path. -/
theorem C5_unknown_names (a : AtomNumber) (s : String) (m n : Idx)
    (v : ℚ) (l : List ℚ) (u : String) :
    (dictLookup a.index_mat s = none →
      a.getItem (Idx.name s) n = Except.error (AtomErr.unknownMaterial s)
      ∧ a.setItem (Idx.name s) n v
          = Except.error (AtomErr.unknownMaterial s)
      ∧ a.get_atom_density (Idx.name s) n
          = Except.error (AtomErr.unknownMaterial s)
      ∧ a.set_atom_density (Idx.name s) n v
          = Except.error (AtomErr.unknownMaterial s)
      ∧ a.get_atom_densities (Idx.name s) u
          = Except.error (AtomErr.unknownMaterial s)
      ∧ a.get_mat_volume (Idx.name s)
          = Except.error (AtomErr.unknownMaterial s)
      ∧ a.get_mat_slice (Idx.name s)
          = Except.error (AtomErr.unknownMaterial s)
      ∧ a.set_mat_slice (Idx.name s) l
          = Except.error (AtomErr.unknownMaterial s))
    ∧ (∀ mi : Int, a.matIndex m = Except.ok mi →
        dictLookup a.index_nuc s = none →
      a.getItem m (Idx.name s) = Except.error (AtomErr.unknownNuclide s)
      ∧ a.setItem m (Idx.name s) v
          = Except.error (AtomErr.unknownNuclide s)
      ∧ a.get_atom_density m (Idx.name s)
          = Except.error (AtomErr.unknownNuclide s)
      ∧ a.set_atom_density m (Idx.name s) v
          = Except.error (AtomErr.unknownNuclide s)) := by
  constructor
  · intro hs
    refine ⟨?_, ?_, ?_, ?_, ?_, ?_, ?_, ?_⟩ <;>
      simp [AtomNumber.getItem, AtomNumber.setItem,
        AtomNumber.get_atom_density, AtomNumber.set_atom_density,
        AtomNumber.get_atom_densities, AtomNumber.get_mat_volume,
        AtomNumber.get_mat_slice, AtomNumber.set_mat_slice,
        AtomNumber.matIndex, hs, Bind.bind, Except.bind]
  · intro mi hm hs
    refine ⟨?_, ?_, ?_, ?_⟩ <;>
      simp [AtomNumber.getItem, AtomNumber.setItem,
        AtomNumber.get_atom_density, AtomNumber.set_atom_density,
        AtomNumber.nucIndex, hm, hs, Bind.bind, Except.bind]

/-- Concrete witness for C5: on a one-material one-nuclide instance the
name "X" is unknown on both axes and produces the matching errors. -/
theorem C5_witness :
    (AtomNumber.init ["1"] ["A"] [] 1).getItem (Idx.name "X") (Idx.name "A")
        = Except.error (AtomErr.unknownMaterial "X")
    ∧ (AtomNumber.init ["1"] ["A"] [] 1).getItem (Idx.name "1")
        (Idx.name "X") = Except.error (AtomErr.unknownNuclide "X") :=
  ⟨((C5_unknown_names (AtomNumber.init ["1"] ["A"] [] 1) "X"
      (Idx.name "1") (Idx.name "A") 0 [] "atom/b-cm").1 (by rfl)).1,
   (((C5_unknown_names (AtomNumber.init ["1"] ["A"] [] 1) "X"
      (Idx.name "1") (Idx.name "A") 0 [] "atom/b-cm").2) 0 (by rfl)
      (by rfl)).1⟩

/-! ## C10: the units argument is never validated -/

/-- `exceptMap` over a list on which `f` agrees with the pure function
`g` returns the plain map. -/
theorem exceptMap_eq_map {α β : Type} {f : α → Except AtomErr β}
    {g : α → β} :
    ∀ {xs : List α}, (∀ x ∈ xs, f x = Except.ok (g x)) →
      AtomNumber.exceptMap f xs = Except.ok (xs.map g) := by
  intro xs
  induction xs with
  | nil => intro h; rfl
  | cons x rest ih =>
      intro h
      have hx := h x (List.mem_cons_self _ _)
      have hrest := ih (fun y hy => h y (List.mem_cons.2 (Or.inr hy)))
      simp [AtomNumber.exceptMap, hx, hrest, Bind.bind, Except.bind,
        Pure.pure, Except.pure]

/-- The volume loop never changes the array's length. -/
theorem applyVolumes_length (im : List (String × Nat)) :
    ∀ (vol : List (String × ℚ)) (acc : List ℚ),
      (AtomNumber.applyVolumes im acc vol).length = acc.length := by
  intro vol
  induction vol with
  | nil => intro acc; rfl
  | cons kv rest ih =>
      intro acc
      cases h : dictLookup im kv.1 with
      | none => simp only [AtomNumber.applyVolumes, h]; exact ih acc
      | some ind =>
          simp only [AtomNumber.applyVolumes, h]
          rw [ih, List.length_set]

theorem init_index_mat (mats nucs : List String) (vol : List (String × ℚ))
    (nb : Int) : (AtomNumber.init mats nucs vol nb).index_mat
      = buildIndex mats := rfl

theorem init_index_nuc (mats nucs : List String) (vol : List (String × ℚ))
    (nb : Int) : (AtomNumber.init mats nucs vol nb).index_nuc
      = buildIndex nucs := rfl

theorem init_number (mats nucs : List String) (vol : List (String × ℚ))
    (nb : Int) : (AtomNumber.init mats nucs vol nb).number
      = List.replicate mats.length (List.replicate nucs.length 0) := rfl

theorem init_volume (mats nucs : List String) (vol : List (String × ℚ))
    (nb : Int) : (AtomNumber.init mats nucs vol nb).volume
      = AtomNumber.applyVolumes (buildIndex mats)
          (List.replicate mats.length 1) vol := rfl

theorem init_volume_length (mats nucs : List String)
    (vol : List (String × ℚ)) (nb : Int) :
    (AtomNumber.init mats nucs vol nb).volume.length = mats.length := by
  rw [init_volume, applyVolumes_length, List.length_replicate]

/-- Reading a fresh instance at valid integer positions returns 0. -/
theorem init_getItem_pos (mats nucs : List String)
    (vol : List (String × ℚ)) (nb : Int) (i j : Nat)
    (hi : i < mats.length) (hj : j < nucs.length) :
    (AtomNumber.init mats nucs vol nb).getItem (Idx.pos (i : Int))
        (Idx.pos (j : Int)) = Except.ok 0 := by
  unfold AtomNumber.getItem AtomNumber.matIndex AtomNumber.nucIndex
  simp only [Bind.bind, Except.bind]
  rw [init_number, List.length_replicate, npIndex_pos_self hi]
  simp only [getD_replicate _ _ _ _ hi, List.length_replicate,
    npIndex_pos_self hj]
  unfold AtomNumber.entry
  rw [init_number, getD_replicate _ _ _ _ hi, getD_replicate _ _ _ _ hj]

/-- If no item of the volume mapping resolves to index `i`, the volume
loop leaves position `i` untouched. -/
theorem applyVolumes_getD_untouched (im : List (String × Nat)) (i : Nat)
    (d : ℚ) :
    ∀ (vol : List (String × ℚ)) (acc : List ℚ),
      (∀ kv ∈ vol, ∀ j, dictLookup im kv.1 = some j → j ≠ i) →
      (AtomNumber.applyVolumes im acc vol).getD i d = acc.getD i d := by
  intro vol
  induction vol with
  | nil => intro acc _; rfl
  | cons kv rest ih =>
      intro acc hv
      cases h : dictLookup im kv.1 with
      | none =>
          simp only [AtomNumber.applyVolumes, h]
          exact ih acc (fun kv2 h2 => hv kv2 (List.mem_cons.2 (Or.inr h2)))
      | some j =>
          simp only [AtomNumber.applyVolumes, h]
          rw [ih (acc.set j kv.2)
            (fun kv2 h2 => hv kv2 (List.mem_cons.2 (Or.inr h2)))]
          exact getD_set_ne _ _ _ _ _
            (hv kv (List.mem_cons_self _ _) j h)

/-- If `(s, v)` is an item of the volume mapping (keys unique, as items
of a Python dict are), `s` resolves to `i`, and no other key can resolve
to `i`, the volume loop leaves `v` at position `i`. -/
theorem applyVolumes_getD_written (im : List (String × Nat)) (i : Nat)
    (s : String) (v d : ℚ)
    (hs : dictLookup im s = some i)
    (hinj : ∀ k j, dictLookup im k = some j → j = i → k = s) :
    ∀ (vol : List (String × ℚ)) (acc : List ℚ),
      (vol.map Prod.fst).Nodup → (s, v) ∈ vol → i < acc.length →
      (AtomNumber.applyVolumes im acc vol).getD i d = v := by
  intro vol
  induction vol with
  | nil => intro acc _ hmem; simp at hmem
  | cons kv rest ih =>
      intro acc hnd hmem hlen
      have hnd2 : (rest.map Prod.fst).Nodup := (List.nodup_cons.1 hnd).2
      have hhead : kv.1 ∉ rest.map Prod.fst := (List.nodup_cons.1 hnd).1
      rcases List.mem_cons.1 hmem with hkv | hkv
      · subst hkv
        simp only [AtomNumber.applyVolumes, hs]
        rw [applyVolumes_getD_untouched]
        · exact getD_set_self _ _ _ _ hlen
        · intro kv2 h2 j hj2 hji
          have he : kv2.1 = s := hinj kv2.1 j hj2 hji
          exact hhead (by rw [← he]; exact List.mem_map.2 ⟨kv2, h2, rfl⟩)
      · have hk1 : kv.1 ≠ s := by
          intro he
          exact hhead (he ▸ (List.mem_map).2 ⟨(s, v), hkv, rfl⟩)
        cases h : dictLookup im kv.1 with
        | none =>
            simp only [AtomNumber.applyVolumes, h]
            exact ih acc hnd2 hkv hlen
        | some j =>
            have hji : j ≠ i := fun he => hk1 (hinj kv.1 j h he)
            simp only [AtomNumber.applyVolumes, h]
            exact ih (acc.set j kv.2) hnd2 hkv
              (by rw [List.length_set]; exact hlen)

/-- Items of the volume mapping whose key is not on the material axis
have no effect at all on the loop's result. -/
theorem applyVolumes_filter (im : List (String × Nat)) :
    ∀ (vol : List (String × ℚ)) (acc : List ℚ),
      AtomNumber.applyVolumes im acc
          (vol.filter (fun kv => (dictLookup im kv.1).isSome))
        = AtomNumber.applyVolumes im acc vol := by
  intro vol
  induction vol with
  | nil => intro acc; rfl
  | cons kv rest ih =>
      intro acc
      cases h : dictLookup im kv.1 with
      | none =>
          rw [List.filter_cons]
          simp only [h, Option.isSome_none, AtomNumber.applyVolumes]
          exact ih acc
      | some ind =>
          rw [List.filter_cons]
          simp only [h, Option.isSome_some, if_true,
            AtomNumber.applyVolumes]
          exact ih (acc.set ind kv.2)

/-! ## C7: volume defaulting and silent skipping of unknown keys -/

/-- C7: (a) a material name on the axis that appears in no item of the
constructor's volume mapping keeps the default volume `1.0`; (b) a
material name that appears as a key of the mapping (dict keys are
unique) gets the mapped value; (c) items whose key is not on the
material axis are silently ignored: the constructed instance is
identical to the one built from the mapping with those items removed (no
error, no effect on any table). -/
theorem C7_volume_defaulting (mats nucs : List String)
    (vol : List (String × ℚ)) (nb : Int) (s : String) :
    (∀ i : Nat, dictLookup (buildIndex mats) s = some i →
      (∀ kv ∈ vol, kv.1 ≠ s) →
      (AtomNumber.init mats nucs vol nb).get_mat_volume (Idx.name s)
        = Except.ok 1)
    ∧ (∀ (i : Nat) (v : ℚ), dictLookup (buildIndex mats) s = some i →
        (vol.map Prod.fst).Nodup → (s, v) ∈ vol →
        (AtomNumber.init mats nucs vol nb).get_mat_volume (Idx.name s)
          = Except.ok v)
    ∧ AtomNumber.init mats nucs vol nb
        = AtomNumber.init mats nucs
            (vol.filter (fun kv => (dictLookup (buildIndex mats) kv.1).isSome))
            nb := by
  refine ⟨?_, ?_, ?_⟩
  · intro i hs hnone
    have hi : i < mats.length := (buildIndex_mem (dictLookup_mem hs)).1
    unfold AtomNumber.get_mat_volume AtomNumber.matIndex
    simp only [Bind.bind, Except.bind, init_index_mat, hs,
      init_volume_length, npIndex_pos_self hi]
    rw [init_volume, applyVolumes_getD_untouched]
    · rw [getD_replicate _ _ _ _ hi]
    · intro kv hkv j hj hji
      subst hji
      exact hnone kv hkv (buildIndex_lookup_inj hj hs)
  · intro i v hs hnd hmem
    have hi : i < mats.length := (buildIndex_mem (dictLookup_mem hs)).1
    unfold AtomNumber.get_mat_volume AtomNumber.matIndex
    simp only [Bind.bind, Except.bind, init_index_mat, hs,
      init_volume_length, npIndex_pos_self hi]
    rw [init_volume, applyVolumes_getD_written (buildIndex mats) i s v 0 hs
      (fun k j hj hji => buildIndex_lookup_inj (hji ▸ hj) hs)
      vol (List.replicate mats.length 1) hnd hmem
      (by rw [List.length_replicate]; exact hi)]
  · have hv := applyVolumes_filter (buildIndex mats) vol
      (List.replicate mats.length 1)
    simp only [AtomNumber.init]
    rw [hv]

/-- Concrete witness for C7: material "2" (absent from the mapping)
defaults to volume 1, material "1" gets its mapped volume 2, and the
off-axis key "junk" is ignored without error or effect. -/
theorem C7_witness :
    (AtomNumber.init ["1", "2"] ["A"] [("1", 2), ("junk", 7)] 1).get_mat_volume
        (Idx.name "2") = Except.ok 1
    ∧ (AtomNumber.init ["1", "2"] ["A"] [("1", 2), ("junk", 7)] 1).get_mat_volume
        (Idx.name "1") = Except.ok 2
    ∧ AtomNumber.init ["1", "2"] ["A"] [("1", 2), ("junk", 7)] 1
        = AtomNumber.init ["1", "2"] ["A"] [("1", 2)] 1 := by
  refine ⟨(C7_volume_defaulting ["1", "2"] ["A"] [("1", 2), ("junk", 7)] 1
      "2").1 1 (by rfl) (by decide),
    (C7_volume_defaulting ["1", "2"] ["A"] [("1", 2), ("junk", 7)] 1
      "1").2.1 0 2 (by rfl) (by decide) (by decide), ?_⟩
  rw [(C7_volume_defaulting ["1", "2"] ["A"] [("1", 2), ("junk", 7)] 1
      "1").2.2]
  rfl

/-! ## C6: the `n_burn ≤ num_nuclides` invariant -/

/-- Counterexample to C6 as stated: the constructor accepts any
burnable-count integer without validation; with an empty nuclide list
and `n_nuc_burn = 1` the claimed invariant `n_nuc_burn ≤ n_nuc` fails at
construction. -/
theorem C6_counterexample :
    ¬ ((AtomNumber.init [] [] [] 1).n_nuc_burn
        ≤ ((AtomNumber.init [] [] [] 1).n_nuc : Int)) := by decide

theorem buildIndexAux_length_nodup :
    ∀ (xs : List String) (d : List (String × Nat)) (i : Nat),
      xs.Nodup → (∀ x ∈ xs, dictLookup d x = none) →
      (buildIndexAux d i xs).length = d.length + xs.length := by
  intro xs
  induction xs with
  | nil => intro d i _ _; rfl
  | cons x rest ih =>
      intro d i hnd hfresh
      have hx : dictLookup d x = none := hfresh x (List.mem_cons_self _ _)
      have hnotin : x ∉ rest := (List.nodup_cons.1 hnd).1
      show (buildIndexAux (dictInsert d x i) (i + 1) rest).length
        = d.length + (rest.length + 1)
      rw [ih (dictInsert d x i) (i + 1) (List.nodup_cons.1 hnd).2 ?_]
      · rw [dictLookup_length_fresh d x i hx]
        omega
      · intro y hy
        have hxy : x ≠ y := fun he => hnotin (he ▸ hy)
        rw [dictLookup_dictInsert_ne d x y i hxy]
        exact hfresh y (List.mem_cons.2 (Or.inr hy))

/-- On a duplicate-free name list the index dict has one entry per
name. -/
theorem buildIndex_length_nodup (xs : List String) (h : xs.Nodup) :
    (buildIndex xs).length = xs.length := by
  have := buildIndexAux_length_nodup xs [] 0 h (fun x _ => rfl)
  simpa using this

/-- C6 (amended): the constructor performs no validation and stores the
burnable count as-is, so for a duplicate-free nuclide list the invariant
`n_nuc_burn ≤ n_nuc` holds on the constructed instance exactly when the
supplied burnable count is at most the number of nuclides. -/
theorem C6_burn_bound (mats nucs : List String) (vol : List (String × ℚ))
    (nb : Int) (hnd : nucs.Nodup) :
    ((AtomNumber.init mats nucs vol nb).n_nuc_burn
        ≤ ((AtomNumber.init mats nucs vol nb).n_nuc : Int))
      ↔ nb ≤ (nucs.length : Int) := by
  have h1 : (AtomNumber.init mats nucs vol nb).n_nuc_burn = nb := rfl
  have h2 : (AtomNumber.init mats nucs vol nb).n_nuc
      = (buildIndex nucs).length := rfl
  rw [h1, h2, buildIndex_length_nodup nucs hnd]

/-- Concrete witness for C6 (amended), on two distinct nuclides with
burnable count 2. -/
theorem C6_witness :
    ((AtomNumber.init ["1"] ["A", "B"] [] 2).n_nuc_burn
        ≤ ((AtomNumber.init ["1"] ["A", "B"] [] 2).n_nuc : Int))
      ↔ (2 : Int) ≤ ((["A", "B"] : List String).length : Int) :=
  C6_burn_bound ["1"] ["A", "B"] [] 2 (by decide)

/-! ## C2: the burnable material slice -/

/-- Counterexample to C2 as stated: an instance constructed with
`n_nuc_burn = 2` but a single nuclide is accepted, and its material
slice has length 1, not `n_burn = 2` — numpy slicing clamps `[:2]` to
the row length instead of faulting. -/
theorem C2_counterexample :
    (AtomNumber.init ["1"] ["A"] [] 2).get_mat_slice (Idx.name "1")
        = Except.ok [0]
    ∧ (AtomNumber.init ["1"] ["A"] [] 2).n_nuc_burn = 2
    ∧ (([0] : List ℚ).length : Int) ≠ 2 := ⟨rfl, rfl, by decide⟩

/-- Inversion of a successful `get_mat_slice`. -/
theorem get_mat_slice_ok_inv {a : AtomNumber} {m : Idx} {l : List ℚ}
    (h : a.get_mat_slice m = Except.ok l) :
    ∃ mi p, a.matIndex m = Except.ok mi ∧
      npIndex a.number.length mi = some p ∧
      l = pyTake a.n_nuc_burn (a.number.getD p []) := by
  unfold AtomNumber.get_mat_slice at h
  cases hm : a.matIndex m with
  | error e => rw [hm] at h; simp [Bind.bind, Except.bind] at h
  | ok mi =>
      rw [hm] at h
      simp only [Bind.bind, Except.bind] at h
      cases hp : npIndex a.number.length mi with
      | none => rw [hp] at h; simp at h
      | some p =>
          rw [hp] at h
          simp only [Except.ok.injEq] at h
          exact ⟨mi, p, rfl, hp, h.symm⟩

theorem getD_take {α : Type} (l : List α) (k i : Nat) (d : α)
    (h : i < k) : (l.take k).getD i d = l.getD i d := by
  simp [List.getD_eq_getElem?_getD, List.getElem?_take, h]

/-- C2 (amended): for an instance whose burnable count is nonnegative
and bounded by every row length (as the spec's `n_burn ≤ num_nuclides`
invariant provides on constructed instances), a successful
`get_mat_slice(m)` returns exactly `n_burn` entries, and its `i`-th
entry is `get(m, i)`; positions `≥ n_burn` are excluded regardless of
their names.  Without the bound, numpy slice clamping makes the length
`min(n_burn, row length)` (see the counterexample). -/
theorem C2_mat_slice (a : AtomNumber) (m : Idx) (l : List ℚ)
    (h : a.get_mat_slice m = Except.ok l)
    (h0 : 0 ≤ a.n_nuc_burn)
    (hrow : ∀ row ∈ a.number, a.n_nuc_burn ≤ (row.length : Int)) :
    (l.length : Int) = a.n_nuc_burn
    ∧ ∀ i : Nat, i < l.length →
        a.getItem m (Idx.pos (i : Int)) = Except.ok (l.getD i 0) := by
  obtain ⟨mi, p, hm, hp, hl⟩ := get_mat_slice_ok_inv h
  have hplen : p < a.number.length := npIndex_lt hp
  have hmem : a.number.getD p [] ∈ a.number := by
    rw [List.getD_eq_getElem?_getD, List.getElem?_eq_getElem hplen]
    exact List.getElem_mem _
  have hbound : a.n_nuc_burn ≤ ((a.number.getD p []).length : Int) :=
    hrow _ hmem
  have hlen : l.length = a.n_nuc_burn.toNat := by
    rw [hl]
    unfold pyTake
    rw [if_pos h0, List.length_take]
    omega
  constructor
  · rw [hlen]; omega
  · intro i hi
    have hik : i < a.n_nuc_burn.toNat := by omega
    have hirow : i < (a.number.getD p []).length := by omega
    unfold AtomNumber.getItem AtomNumber.nucIndex
    rw [hm]
    simp only [Bind.bind, Except.bind, hp, npIndex_pos_self hirow]
    unfold AtomNumber.entry
    rw [hl]
    unfold pyTake
    rw [if_pos h0, getD_take _ _ _ _ hik]

/-- Concrete witness for C2 (amended): the spec's end-to-end scenario
instance has burnable slice `[0, 0]` of length `n_burn = 2`, matching
`get` at positions 0 and 1. -/
theorem C2_witness :
    ((([0, 0] : List ℚ).length : Int)
        = (AtomNumber.init ["1", "2"] ["U235", "U238", "O16"] [("1", 2)]
            2).n_nuc_burn)
    ∧ ∀ i : Nat, i < ([0, 0] : List ℚ).length →
        (AtomNumber.init ["1", "2"] ["U235", "U238", "O16"] [("1", 2)]
            2).getItem (Idx.name "1") (Idx.pos (i : Int))
          = Except.ok (([0, 0] : List ℚ).getD i 0) :=
  C2_mat_slice _ (Idx.name "1") [0, 0] (by rfl) (by decide) (by decide)

/-! ## C9: integer positions, bounds, and negative-index aliasing -/

/-- Counterexample to C9 as stated: the integer position `-1` is outside
the valid material axis range `[0, 2)`, yet `get(-1, 0)` does not fault:
it silently returns the entry of the last row (numpy negative
indexing). -/
theorem C9_counterexample :
    (AtomNumber.init ["1", "2"] ["A"] [] 1).setItem (Idx.pos 1) (Idx.pos 0) 7
      = Except.ok (AtomNumber.mk [("1", 0), ("2", 1)] [("A", 0)] [1, 1] 1
          [[0], [7]])
    ∧ (AtomNumber.mk [("1", 0), ("2", 1)] [("A", 0)] [1, 1] 1
        [[0], [7]]).getItem (Idx.pos (-1)) (Idx.pos 0) = Except.ok 7 :=
  ⟨by rfl, by rfl⟩

/-- A negative in-window index aliases the index counted from the end. -/
theorem npIndex_neg {n : Nat} {i : Int} (h1 : -(n : Int) ≤ i)
    (h2 : i < 0) : npIndex n i = npIndex n ((n : Int) + i) := by
  unfold npIndex
  rw [if_neg (by omega), if_pos (by omega), if_pos (by omega)]

/-- C9 (amended): integer positions on both axes are passed through the
resolution step as-is with no bounds validation; at the numpy array
access, in both `get` and `set`, a position outside `[-n, n)` (where
`n` is that axis's length) faults as an out-of-bounds error, while a
position in `[-n, 0)` is interpreted as `n + i` — indexing from the
end — and succeeds silently.  So out-of-range positions in the spec's
sense (outside `[0, n)`) do not all fault: the negative half-window
aliases valid entries.  The material-axis parts take any nuclide
argument that resolves; the nuclide-axis parts take any material
argument that resolves to a row. -/
theorem C9_integer_positions (a : AtomNumber) (n : Idx) (v : ℚ) :
    (∀ i : Int, a.matIndex (Idx.pos i) = Except.ok i
      ∧ a.nucIndex (Idx.pos i) = Except.ok i)
    ∧ (∀ i ni : Int, a.nucIndex n = Except.ok ni →
        (i < -(a.number.length : Int) ∨ (a.number.length : Int) ≤ i) →
        a.getItem (Idx.pos i) n = Except.error AtomErr.indexOutOfRange
        ∧ a.setItem (Idx.pos i) n v
            = Except.error AtomErr.indexOutOfRange)
    ∧ (∀ i : Int, -(a.number.length : Int) ≤ i → i < 0 →
        a.getItem (Idx.pos i) n
          = a.getItem (Idx.pos ((a.number.length : Int) + i)) n
        ∧ a.setItem (Idx.pos i) n v
          = a.setItem (Idx.pos ((a.number.length : Int) + i)) n v)
    ∧ (∀ (m : Idx) (mi : Int) (p : Nat) (j : Int),
        a.matIndex m = Except.ok mi →
        npIndex a.number.length mi = some p →
        (j < -((a.number.getD p []).length : Int)
          ∨ ((a.number.getD p []).length : Int) ≤ j) →
        a.getItem m (Idx.pos j) = Except.error AtomErr.indexOutOfRange
        ∧ a.setItem m (Idx.pos j) v
            = Except.error AtomErr.indexOutOfRange)
    ∧ (∀ (m : Idx) (mi : Int) (p : Nat) (j : Int),
        a.matIndex m = Except.ok mi →
        npIndex a.number.length mi = some p →
        -((a.number.getD p []).length : Int) ≤ j → j < 0 →
        a.getItem m (Idx.pos j)
          = a.getItem m
              (Idx.pos (((a.number.getD p []).length : Int) + j))
        ∧ a.setItem m (Idx.pos j) v
          = a.setItem m
              (Idx.pos (((a.number.getD p []).length : Int) + j)) v) := by
  refine ⟨fun i => ⟨rfl, rfl⟩, ?_, ?_, ?_, ?_⟩
  · intro i ni hn hout
    have hnone : npIndex a.number.length i = none := by
      unfold npIndex
      rw [if_neg (by omega), if_neg (by omega)]
    constructor
    · unfold AtomNumber.getItem AtomNumber.matIndex
      simp only [Bind.bind, Except.bind, hn, hnone]
    · unfold AtomNumber.setItem AtomNumber.matIndex
      simp only [Bind.bind, Except.bind, hn, hnone]
  · intro i h1 h2
    constructor
    · unfold AtomNumber.getItem AtomNumber.matIndex
      simp only [Bind.bind, Except.bind]
      rw [npIndex_neg h1 h2]
    · unfold AtomNumber.setItem AtomNumber.matIndex
      simp only [Bind.bind, Except.bind]
      rw [npIndex_neg h1 h2]
  · intro m mi p j hm hp hout
    have hnj : a.nucIndex (Idx.pos j) = Except.ok j := rfl
    have hnone : npIndex (a.number.getD p []).length j = none := by
      unfold npIndex
      rw [if_neg (by omega), if_neg (by omega)]
    constructor
    · unfold AtomNumber.getItem
      rw [hm]
      simp only [Bind.bind, Except.bind, hnj, hp, hnone]
    · unfold AtomNumber.setItem
      rw [hm]
      simp only [Bind.bind, Except.bind, hnj, hp, hnone]
  · intro m mi p j hm hp h1 h2
    have hnj : a.nucIndex (Idx.pos j) = Except.ok j := rfl
    have hnj2 : a.nucIndex
        (Idx.pos (((a.number.getD p []).length : Int) + j))
        = Except.ok (((a.number.getD p []).length : Int) + j) := rfl
    constructor
    · unfold AtomNumber.getItem
      rw [hm]
      simp only [Bind.bind, Except.bind, hnj, hnj2, hp]
      rw [npIndex_neg h1 h2]
    · unfold AtomNumber.setItem
      rw [hm]
      simp only [Bind.bind, Except.bind, hnj, hnj2, hp]
      rw [npIndex_neg h1 h2]

/-- Concrete witness for C9 (amended): on a two-material, one-nuclide
instance, material position 5 and nuclide position 5 both fault in get
and set, while material position `-1` and nuclide position `-1` alias
positions `2 + (-1)` and `1 + (-1)` respectively, in get and set. -/
theorem C9_witness :
    ((AtomNumber.init ["1", "2"] ["A"] [] 1).getItem (Idx.pos 5)
        (Idx.pos 0) = Except.error AtomErr.indexOutOfRange
      ∧ (AtomNumber.init ["1", "2"] ["A"] [] 1).setItem (Idx.pos 5)
        (Idx.pos 0) 3 = Except.error AtomErr.indexOutOfRange)
    ∧ ((AtomNumber.init ["1", "2"] ["A"] [] 1).getItem (Idx.pos (-1))
          (Idx.pos 0)
        = (AtomNumber.init ["1", "2"] ["A"] [] 1).getItem
            (Idx.pos (((AtomNumber.init ["1", "2"] ["A"] [] 1).number.length
              : Int) + -1)) (Idx.pos 0)
      ∧ (AtomNumber.init ["1", "2"] ["A"] [] 1).setItem (Idx.pos (-1))
          (Idx.pos 0) 3
        = (AtomNumber.init ["1", "2"] ["A"] [] 1).setItem
            (Idx.pos (((AtomNumber.init ["1", "2"] ["A"] [] 1).number.length
              : Int) + -1)) (Idx.pos 0) 3)
    ∧ ((AtomNumber.init ["1", "2"] ["A"] [] 1).getItem (Idx.name "1")
          (Idx.pos 5) = Except.error AtomErr.indexOutOfRange
      ∧ (AtomNumber.init ["1", "2"] ["A"] [] 1).setItem (Idx.name "1")
          (Idx.pos 5) 3 = Except.error AtomErr.indexOutOfRange)
    ∧ ((AtomNumber.init ["1", "2"] ["A"] [] 1).getItem (Idx.name "1")
          (Idx.pos (-1))
        = (AtomNumber.init ["1", "2"] ["A"] [] 1).getItem (Idx.name "1")
            (Idx.pos ((((AtomNumber.init ["1", "2"] ["A"] [] 1).number.getD
              0 []).length : Int) + -1))
      ∧ (AtomNumber.init ["1", "2"] ["A"] [] 1).setItem (Idx.name "1")
          (Idx.pos (-1)) 3
        = (AtomNumber.init ["1", "2"] ["A"] [] 1).setItem (Idx.name "1")
            (Idx.pos ((((AtomNumber.init ["1", "2"] ["A"] [] 1).number.getD
              0 []).length : Int) + -1)) 3) :=
  ⟨(C9_integer_positions (AtomNumber.init ["1", "2"] ["A"] [] 1)
      (Idx.pos 0) 3).2.1 5 0 (by rfl) (by decide),
   (C9_integer_positions (AtomNumber.init ["1", "2"] ["A"] [] 1)
      (Idx.pos 0) 3).2.2.1 (-1) (by decide) (by decide),
   (C9_integer_positions (AtomNumber.init ["1", "2"] ["A"] [] 1)
      (Idx.pos 0) 3).2.2.2.1 (Idx.name "1") 0 0 5 (by rfl) (by rfl)
      (by decide),
   (C9_integer_positions (AtomNumber.init ["1", "2"] ["A"] [] 1)
      (Idx.pos 0) 3).2.2.2.2 (Idx.name "1") 0 0 (-1) (by rfl) (by rfl)
      (by decide) (by decide)⟩

/-! ## C3: density round-trip -/

/-- Inversion of a successful `get_mat_volume`. -/
theorem get_mat_volume_ok_inv {a : AtomNumber} {m : Idx} {v : ℚ}
    (h : a.get_mat_volume m = Except.ok v) :
    ∃ mi pv, a.matIndex m = Except.ok mi ∧
      npIndex a.volume.length mi = some pv ∧ v = a.volume.getD pv 0 := by
  unfold AtomNumber.get_mat_volume at h
  cases hm : a.matIndex m with
  | error e => rw [hm] at h; simp [Bind.bind, Except.bind] at h
  | ok mi =>
      rw [hm] at h
      simp only [Bind.bind, Except.bind] at h
      cases hp : npIndex a.volume.length mi with
      | none => rw [hp] at h; simp at h
      | some pv =>
          rw [hp] at h
          simp only [Except.ok.injEq] at h
          exact ⟨mi, pv, rfl, hp, h.symm⟩

/-- Inversion of a successful `set_atom_density`: the write that was
performed is a `setItem` of `val * volume[mat]`. -/
theorem set_atom_density_ok_inv {a a2 : AtomNumber} {m n : Idx} {d : ℚ}
    (h : a.set_atom_density m n d = Except.ok a2) :
    ∃ mi ni pv, a.matIndex m = Except.ok mi ∧
      a.nucIndex n = Except.ok ni ∧
      npIndex a.volume.length mi = some pv ∧
      a.setItem (Idx.pos mi) (Idx.pos ni) (d * a.volume.getD pv 0)
        = Except.ok a2 := by
  unfold AtomNumber.set_atom_density at h
  cases hm : a.matIndex m with
  | error e => rw [hm] at h; simp [Bind.bind, Except.bind] at h
  | ok mi =>
      rw [hm] at h
      simp only [Bind.bind, Except.bind] at h
      cases hn : a.nucIndex n with
      | error e => rw [hn] at h; simp at h
      | ok ni =>
          rw [hn] at h
          simp only at h
          cases hp : npIndex a.volume.length mi with
          | none => rw [hp] at h; simp at h
          | some pv =>
              rw [hp] at h
              exact ⟨mi, ni, pv, rfl, rfl, hp, h⟩

/-- Counterexample to C3 as stated: the result does depend on the stored
volume.  With material volume 0, `set_atom_density(m, n, 1)` stores
`1 * 0 = 0` and `get_atom_density(m, n)` returns `0 / 0`, which is `0`
in the exact-arithmetic model (numpy produces `nan`) — not the density 1
that was set. -/
theorem C3_counterexample :
    ((AtomNumber.init ["1"] ["A"] [("1", 0)] 1).set_atom_density
        (Idx.name "1") (Idx.name "A") 1).bind
      (fun b => b.get_atom_density (Idx.name "1") (Idx.name "A"))
      = Except.ok 0
    ∧ (0 : ℚ) ≠ 1 := by
  constructor
  · norm_num [AtomNumber.init, AtomNumber.applyVolumes, buildIndex,
      buildIndexAux, dictInsert, dictLookup, AtomNumber.set_atom_density,
      AtomNumber.setItem, AtomNumber.get_atom_density, AtomNumber.getItem,
      AtomNumber.matIndex, AtomNumber.nucIndex, npIndex, AtomNumber.entry,
      List.getD, Bind.bind, Except.bind, List.replicate, List.set]
  · norm_num

/-- C3 (amended): for every valid `m`, `n` and density `d`,
`set_atom_density(m, n, d)` followed by `get_atom_density(m, n)` returns
`d` exactly, provided the volume stored for `m` is nonzero, and then the
result does not depend on which nonzero volume is stored. -/
theorem C3_density_roundtrip (a a2 : AtomNumber) (m n : Idx) (d v : ℚ)
    (hv : a.get_mat_volume m = Except.ok v) (hv0 : v ≠ 0)
    (hs : a.set_atom_density m n d = Except.ok a2) :
    a2.get_atom_density m n = Except.ok d := by
  obtain ⟨mi, ni, pv, hm, hn, hp, hset⟩ := set_atom_density_ok_inv hs
  obtain ⟨mi2, pv2, hm2, hp2, hveq⟩ := get_mat_volume_ok_inv hv
  rw [hm] at hm2
  have hmi : mi = mi2 := Except.ok.inj hm2
  rw [← hmi] at hp2
  rw [hp] at hp2
  have hpv : pv = pv2 := Option.some.inj hp2
  rw [← hpv] at hveq
  obtain ⟨mi3, ni3, p, q, hm3, hn3, hp3, hq3, rfl⟩ :=
    AtomNumber.setItem_ok_inv hset
  have hmi3 : mi3 = mi := Except.ok.inj hm3.symm
  have hni3 : ni3 = ni := Except.ok.inj hn3.symm
  rw [hmi3] at hp3
  rw [hni3] at hq3
  have hplen : p < a.number.length := npIndex_lt hp3
  have hrow : (a.number.set p
        ((a.number.getD p []).set q (d * a.volume.getD pv 0))).getD p []
      = (a.number.getD p []).set q (d * a.volume.getD pv 0) :=
    getD_set_self _ _ _ _ hplen
  unfold AtomNumber.get_atom_density
  rw [AtomNumber.matIndex_number_update, hm]
  simp only [Bind.bind, Except.bind]
  rw [AtomNumber.nucIndex_number_update, hn]
  simp only
  unfold AtomNumber.getItem AtomNumber.matIndex AtomNumber.nucIndex
  simp only [Bind.bind, Except.bind, List.length_set, hp3, hrow,
    List.length_set, hq3, AtomNumber.entry]
  rw [getD_set_self _ _ _ _ (npIndex_lt hq3)]
  simp only [hp]
  rw [← hveq, mul_div_cancel_right₀ d hv0]

/-- Concrete witness for C3 (amended): volume 2, density 5 — the store
writes 10 atoms and the read returns 10 / 2 = 5 again. -/
theorem C3_witness :
    (AtomNumber.init ["1"] ["A"] [("1", 2)] 1).set_atom_density
        (Idx.name "1") (Idx.name "A") 5
      = Except.ok (AtomNumber.mk [("1", 0)] [("A", 0)] [2] 1 [[10]])
    ∧ (AtomNumber.mk [("1", 0)] [("A", 0)] [2] 1 [[10]]).get_atom_density
        (Idx.name "1") (Idx.name "A") = Except.ok 5 := by
  have hs : (AtomNumber.init ["1"] ["A"] [("1", 2)] 1).set_atom_density
      (Idx.name "1") (Idx.name "A") 5
      = Except.ok (AtomNumber.mk [("1", 0)] [("A", 0)] [2] 1 [[10]]) := by
    norm_num [AtomNumber.init, AtomNumber.applyVolumes, buildIndex,
      buildIndexAux, dictInsert, dictLookup, AtomNumber.set_atom_density,
      AtomNumber.setItem, AtomNumber.matIndex, AtomNumber.nucIndex,
      npIndex, AtomNumber.entry, List.getD, Bind.bind, Except.bind,
      List.replicate, List.set]
  exact ⟨hs, C3_density_roundtrip (AtomNumber.init ["1"] ["A"] [("1", 2)] 1)
    (AtomNumber.mk [("1", 0)] [("A", 0)] [2] 1 [[10]])
    (Idx.name "1") (Idx.name "A") 5 2 (by rfl) (by norm_num) hs⟩

/-! ## C4: unit scaling and coverage of `get_atom_densities` -/

theorem exceptMap_cons_ok {α β : Type} {f : α → Except AtomErr β}
    {x : α} {xs : List α} {l : List β}
    (h : AtomNumber.exceptMap f (x :: xs) = Except.ok l) :
    ∃ y l2, f x = Except.ok y ∧ AtomNumber.exceptMap f xs = Except.ok l2
      ∧ l = y :: l2 := by
  unfold AtomNumber.exceptMap at h
  cases hx : f x with
  | error e => rw [hx] at h; simp [Bind.bind, Except.bind] at h
  | ok y =>
      rw [hx] at h
      simp only [Bind.bind, Except.bind] at h
      cases hxs : AtomNumber.exceptMap f xs with
      | error e => rw [hxs] at h; simp at h
      | ok l2 =>
          rw [hxs] at h
          simp only [Pure.pure, Except.pure, Except.ok.injEq] at h
          exact ⟨y, l2, rfl, rfl, h.symm⟩

/-- Two effectful maps over the same list whose bodies succeed in
lockstep, the first returning `r` of the second's value, produce lists
related by `List.map r`. -/
theorem exceptMap_ok_rel {α β : Type} {f g : α → Except AtomErr β}
    {r : β → β} (hfg : ∀ x y, g x = Except.ok y → f x = Except.ok (r y)) :
    ∀ {xs : List α} {lb lc : List β},
      AtomNumber.exceptMap f xs = Except.ok lb →
      AtomNumber.exceptMap g xs = Except.ok lc → lb = lc.map r := by
  intro xs
  induction xs with
  | nil =>
      intro lb lc hb hc
      simp only [AtomNumber.exceptMap, Except.ok.injEq] at hb hc
      rw [← hb, ← hc]
      rfl
  | cons x rest ih =>
      intro lb lc hb hc
      obtain ⟨y, l2, hgx, hgrest, rfl⟩ := exceptMap_cons_ok hc
      obtain ⟨z, l1, hfx, hfrest, rfl⟩ := exceptMap_cons_ok hb
      have hz : z = r y := by
        have := hfg x y hgx
        rw [hfx] at this
        exact Except.ok.inj this
      rw [List.map_cons, hz, ih hfrest hgrest]

/-- A successful effectful map whose body preserves the key component
returns a list with exactly the input's keys, in order. -/
theorem exceptMap_fst {f : String × Nat → Except AtomErr (String × ℚ)}
    (hf : ∀ x y, f x = Except.ok y → y.1 = x.1) :
    ∀ {xs : List (String × Nat)} {l : List (String × ℚ)},
      AtomNumber.exceptMap f xs = Except.ok l →
      l.map Prod.fst = xs.map Prod.fst := by
  intro xs
  induction xs with
  | nil =>
      intro l h
      simp only [AtomNumber.exceptMap, Except.ok.injEq] at h
      rw [← h]
      rfl
  | cons x rest ih =>
      intro l h
      obtain ⟨y, l2, hx, hrest, rfl⟩ := exceptMap_cons_ok h
      simp only [List.map_cons, hf x y hx, ih hrest]

/-- Inversion of a successful `get_atom_densities`: the resolved row,
the volume entry, and the comprehension equation. -/
theorem get_atom_densities_ok_inv {a : AtomNumber} {m : Idx} {u : String}
    {l : List (String × ℚ)}
    (h : a.get_atom_densities m u = Except.ok l) :
    ∃ mi p, a.matIndex m = Except.ok mi ∧
      npIndex a.volume.length mi = some p ∧
      AtomNumber.exceptMap (fun kv => do
        let x ← a.getItem (Idx.pos mi) (Idx.pos (kv.2 : Int))
        pure (kv.1,
          ((if u = "atom/b-cm" then AtomNumber.barnScale else 1)
            / a.volume.getD p 0) * x)) a.index_nuc = Except.ok l := by
  unfold AtomNumber.get_atom_densities at h
  cases hm : a.matIndex m with
  | error e => rw [hm] at h; simp [Bind.bind, Except.bind] at h
  | ok mi =>
      rw [hm] at h
      simp only [Bind.bind, Except.bind] at h
      cases hp : npIndex a.volume.length mi with
      | none => rw [hp] at h; simp at h
      | some p =>
          rw [hp] at h
          exact ⟨mi, p, rfl, hp, h⟩

/-- C4: whenever both unit variants of `get_atom_densities` succeed for
the same material, the `"atom/b-cm"` result is the `"atom/cm3"` result
with every density multiplied by the fixed factor `1.0e-24`, and the
returned mapping has one entry per tracked nuclide, keyed by name in the
nuclide dict's iteration order (all nuclides, not only burnable ones). -/
theorem C4_unit_scaling (a : AtomNumber) (m : Idx)
    (lb lc : List (String × ℚ))
    (hb : a.get_atom_densities m "atom/b-cm" = Except.ok lb)
    (hc : a.get_atom_densities m "atom/cm3" = Except.ok lc) :
    lb = lc.map (fun kv => (kv.1, kv.2 * AtomNumber.barnScale))
    ∧ lb.map Prod.fst = a.index_nuc.map Prod.fst := by
  obtain ⟨mi, p, hm, hp, hmb⟩ := get_atom_densities_ok_inv hb
  obtain ⟨mi2, p2, hm2, hp2, hmc⟩ := get_atom_densities_ok_inv hc
  rw [hm] at hm2
  have hmi : mi = mi2 := Except.ok.inj hm2
  rw [← hmi] at hp2 hmc
  rw [hp] at hp2
  have hpp : p = p2 := Option.some.inj hp2
  rw [← hpp] at hmc
  constructor
  · refine exceptMap_ok_rel ?_ hmb hmc
    intro kv y hg
    cases hx : a.getItem (Idx.pos mi) (Idx.pos (kv.2 : Int)) with
    | error e => rw [hx] at hg; simp [Bind.bind, Except.bind] at hg
    | ok x =>
        rw [hx] at hg
        simp only [Bind.bind, Except.bind, Pure.pure, Except.pure,
          Except.ok.injEq] at hg
        have htrue : (("atom/b-cm" : String) = "atom/b-cm") = True :=
          eq_true rfl
        have hfalse : (("atom/cm3" : String) = "atom/b-cm") = False :=
          eq_false (by decide)
        simp only [Bind.bind, Except.bind, Pure.pure, Except.pure,
          Except.ok.injEq, ← hg, htrue, hfalse, if_true, if_false,
          Prod.mk.injEq, true_and]
        ring
  · refine exceptMap_fst ?_ hmb
    intro kv y hf
    cases hx : a.getItem (Idx.pos mi) (Idx.pos (kv.2 : Int)) with
    | error e => rw [hx] at hf; simp [Bind.bind, Except.bind] at hf
    | ok x =>
        rw [hx] at hf
        simp only [Bind.bind, Except.bind, Pure.pure, Except.pure,
          Except.ok.injEq] at hf
        rw [← hf]

/-- Concrete witness for C4: volume 2, stored quantities 10 and 4 —
cm³ densities are 5 and 2, and the barn-cm result is those times
`1.0e-24`, covering both nuclides in index order. -/
theorem C4_witness :
    ([("U235", 5 * AtomNumber.barnScale), ("O16", 2 * AtomNumber.barnScale)]
        : List (String × ℚ))
      = ([("U235", (5 : ℚ)), ("O16", 2)]).map
          (fun kv => (kv.1, kv.2 * AtomNumber.barnScale))
    ∧ ([("U235", 5 * AtomNumber.barnScale),
        ("O16", 2 * AtomNumber.barnScale)] : List (String × ℚ)).map Prod.fst
      = ([("U235", 0), ("O16", 1)] : List (String × Nat)).map Prod.fst := by
  have hfalse : (("atom/cm3" : String) = "atom/b-cm") = False :=
    eq_false (by decide)
  refine C4_unit_scaling
    (AtomNumber.mk [("1", 0)] [("U235", 0), ("O16", 1)] [2] 1 [[10, 4]])
    (Idx.name "1") _ _ ?_ ?_ <;>
    norm_num [AtomNumber.get_atom_densities, AtomNumber.matIndex,
      dictLookup, npIndex, AtomNumber.exceptMap, AtomNumber.getItem,
      AtomNumber.nucIndex, AtomNumber.entry, AtomNumber.barnScale,
      Bind.bind, Except.bind, Pure.pure, Except.pure, List.getD, hfalse]

/-- C10: any units string other than `"atom/b-cm"` selects scale `1.0`,
so the call behaves exactly like `units = "atom/cm3"` (same value, or
the same error, in every state); the units argument itself can never
cause a failure — on a freshly constructed instance with a known
material name the call succeeds for every such units string, returning
the all-zero density dict over all nuclides. -/
theorem C10_units_not_validated (a : AtomNumber) (m : Idx) (u : String)
    (hu : u ≠ "atom/b-cm") :
    a.get_atom_densities m u = a.get_atom_densities m "atom/cm3"
    ∧ ∀ (mats nucs : List String) (vol : List (String × ℚ)) (nb : Int)
        (s : String) (i : Nat),
        dictLookup (buildIndex mats) s = some i →
        (AtomNumber.init mats nucs vol nb).get_atom_densities
            (Idx.name s) u
          = Except.ok ((buildIndex nucs).map (fun kv => (kv.1, 0))) := by
  constructor
  · unfold AtomNumber.get_atom_densities
    rw [if_neg hu, if_neg (by decide : ¬ ("atom/cm3" = "atom/b-cm"))]
  · intro mats nucs vol nb s i hs
    have hi : i < mats.length := (buildIndex_mem (dictLookup_mem hs)).1
    unfold AtomNumber.get_atom_densities AtomNumber.matIndex
    simp only [Bind.bind, Except.bind, init_index_mat, hs]
    rw [init_volume_length, npIndex_pos_self hi]
    simp only [init_index_nuc]
    refine exceptMap_eq_map ?_
    intro kv hkv
    have hj : kv.2 < nucs.length := by
      have := buildIndex_mem (k := kv.1) (v := kv.2) (by simpa using hkv)
      exact this.1
    simp only [Bind.bind, Except.bind, init_getItem_pos mats nucs vol nb
      i kv.2 hi hj]
    simp [mul_zero, Pure.pure, Except.pure]

/-- Concrete witness for C10: the misspelled units string "atoms/cc" is
accepted and behaves exactly like "atom/cm3". -/
theorem C10_witness :
    (AtomNumber.init ["1"] ["A"] [] 1).get_atom_densities (Idx.name "1")
        "atoms/cc"
      = (AtomNumber.init ["1"] ["A"] [] 1).get_atom_densities
          (Idx.name "1") "atom/cm3"
    ∧ (AtomNumber.init ["1"] ["A"] [] 1).get_atom_densities (Idx.name "1")
        "atoms/cc" = Except.ok [("A", 0)] :=
  ⟨(C10_units_not_validated (AtomNumber.init ["1"] ["A"] [] 1)
      (Idx.name "1") "atoms/cc" (by decide)).1,
   (C10_units_not_validated (AtomNumber.init ["1"] ["A"] [] 1)
      (Idx.name "1") "atoms/cc" (by decide)).2 ["1"] ["A"] [] 1 "1" 0
      (by rfl)⟩
theorem C1_witness :
    (AtomNumber.init ["1"] ["U235"] [] 1).setItem (Idx.name "1")
        (Idx.name "U235") 5
      = Except.ok (AtomNumber.mk [("1", 0)] [("U235", 0)] [1] 1 [[5]])
    ∧ (AtomNumber.mk [("1", 0)] [("U235", 0)] [1] 1 [[5]]).getItem
        (Idx.name "1") (Idx.name "U235") = Except.ok 5 :=
  ⟨by rfl,
   C1_set_get_roundtrip (AtomNumber.init ["1"] ["U235"] [] 1)
     (AtomNumber.mk [("1", 0)] [("U235", 0)] [1] 1 [[5]])
     (Idx.name "1") (Idx.name "U235") 5 (by rfl)⟩

/-! ## C8: frame effects of the write operations -/

theorem getD_map {α β : Type} (f : α → β) (l : List α) (i : Nat) (d : α)
    (h : i < l.length) : (l.map f).getD i (f d) = f (l.getD i d) := by
  simp [List.getD_eq_getElem?_getD, List.getElem?_map,
    List.getElem?_eq_getElem h]

theorem getD_of_le_length {α : Type} (l : List α) (i : Nat) (d : α)
    (h : l.length ≤ i) : l.getD i d = d := by
  simp [List.getD_eq_getElem?_getD, List.getElem?_eq_none h]

theorem getD_append_right {α : Type} (w t : List α) (q : Nat) (d : α)
    (h : w.length ≤ q) : (w ++ t).getD q d = t.getD (q - w.length) d := by
  simp [List.getD_eq_getElem?_getD, List.getElem?_append, Nat.not_lt.2 h]

theorem getD_drop {α : Type} (l : List α) (k j : Nat) (d : α) :
    (l.drop k).getD j d = l.getD (k + j) d := by
  simp [List.getD_eq_getElem?_getD, List.getElem?_drop]

/-- Replacing a row by one of the same length keeps the table's shape. -/
theorem map_length_set_row (N : List (List ℚ)) (p : Nat) (r : List ℚ)
    (hp : p < N.length) (hr : r.length = (N.getD p []).length) :
    (N.set p r).map List.length = N.map List.length := by
  rw [List.map_set, hr, ← getD_map List.length N p [] hp]
  exact set_getD_self _ _ _ (by rw [List.length_map]; exact hp)

theorem row_length_of_map_length {N1 N2 : List (List ℚ)}
    (h : N1.map List.length = N2.map List.length) (p : Nat) :
    (N1.getD p []).length = (N2.getD p []).length := by
  have hlen : N1.length = N2.length := by
    have := congrArg List.length h
    simpa using this
  by_cases hp : p < N1.length
  · have h1 := getD_map List.length N1 p [] hp
    have h2 := getD_map List.length N2 p [] (by omega)
    rw [← h1, ← h2, h]
  · rw [getD_of_le_length N1 p [] (by omega),
      getD_of_le_length N2 p [] (by omega)]

theorem pyTake_length_congr {k : Int} {l1 l2 : List ℚ}
    (h : l1.length = l2.length) :
    (pyTake k l1).length = (pyTake k l2).length := by
  unfold pyTake
  rw [h]
  split <;> simp [List.length_take, h]

theorem matPos_eq {a : AtomNumber} {m : Idx} {mi : Int} {p : Nat}
    (hm : a.matIndex m = Except.ok mi)
    (hp : npIndex a.number.length mi = some p) : a.matPos m = some p := by
  unfold AtomNumber.matPos
  rw [hm]
  exact hp

theorem nucPos_eq {a : AtomNumber} {n : Idx} {ni : Int} {p q : Nat}
    (hn : a.nucIndex n = Except.ok ni)
    (hq : npIndex (a.number.getD p []).length ni = some q) :
    a.nucPos p n = some q := by
  unfold AtomNumber.nucPos
  rw [hn]
  exact hq

theorem matPos_congr {a : AtomNumber} {m : Idx} {mi : Int}
    (hm : a.matIndex m = Except.ok mi) :
    a.matPos m = a.matPos (Idx.pos mi) := by
  unfold AtomNumber.matPos
  rw [hm]
  rfl

theorem nucPos_congr {a : AtomNumber} {n : Idx} {ni : Int} {p : Nat}
    (hn : a.nucIndex n = Except.ok ni) :
    a.nucPos p n = a.nucPos p (Idx.pos ni) := by
  unfold AtomNumber.nucPos
  rw [hn]
  rfl

/-- `__setitem__` preserves the frame and changes at most the one cell
both axes resolve to. -/
theorem setItem_frame {a a2 : AtomNumber} {m n : Idx} {v : ℚ}
    (h : a.setItem m n v = Except.ok a2) :
    AtomNumber.framePreserved a a2
    ∧ ∀ p q : Nat, a2.entry p q ≠ a.entry p q →
        a.matPos m = some p ∧ a.nucPos p n = some q := by
  obtain ⟨mi, ni, p0, q0, hm, hn, hp, hq, rfl⟩ := AtomNumber.setItem_ok_inv h
  have hplen : p0 < a.number.length := npIndex_lt hp
  refine ⟨⟨rfl, rfl, rfl, rfl,
    map_length_set_row _ _ _ hplen (List.length_set _ _ _)⟩, ?_⟩
  intro p q hne
  unfold AtomNumber.entry at hne
  simp only at hne
  by_cases hpp : p = p0
  · subst hpp
    rw [getD_set_self _ _ _ _ hplen] at hne
    by_cases hqq : q = q0
    · subst hqq
      exact ⟨matPos_eq hm hp, nucPos_eq hn hq⟩
    · rw [getD_set_ne _ _ _ _ _ (fun he => hqq he.symm)] at hne
      exact absurd rfl hne
  · rw [getD_set_ne _ _ _ _ _ (fun he => hpp he.symm)] at hne
    exact absurd rfl hne

/-- `set_atom_density` preserves the frame and changes at most the one
cell both axes resolve to. -/
theorem set_atom_density_frame {a a2 : AtomNumber} {m n : Idx} {d : ℚ}
    (h : a.set_atom_density m n d = Except.ok a2) :
    AtomNumber.framePreserved a a2
    ∧ ∀ p q : Nat, a2.entry p q ≠ a.entry p q →
        a.matPos m = some p ∧ a.nucPos p n = some q := by
  obtain ⟨mi, ni, pv, hm, hn, hp, hset⟩ := set_atom_density_ok_inv h
  obtain ⟨hframe, hentry⟩ := setItem_frame hset
  refine ⟨hframe, ?_⟩
  intro p q hne
  obtain ⟨h1, h2⟩ := hentry p q hne
  exact ⟨(matPos_congr hm).trans h1, (nucPos_congr hn).trans h2⟩

/-- Inversion of a successful `set_mat_slice`: the written row is some
prefix `w` of the slice's length (the value itself, or its broadcast)
followed by the untouched tail. -/
theorem set_mat_slice_ok_inv {a a2 : AtomNumber} {m : Idx}
    {val : List ℚ} (h : a.set_mat_slice m val = Except.ok a2) :
    ∃ mi p w, a.matIndex m = Except.ok mi ∧
      npIndex a.number.length mi = some p ∧
      w.length = (pyTake a.n_nuc_burn (a.number.getD p [])).length ∧
      a2 = { a with number := a.number.set p (w ++ (a.number.getD p []).drop w.length) } := by
  unfold AtomNumber.set_mat_slice at h
  cases hm : a.matIndex m with
  | error e => rw [hm] at h; simp [Bind.bind, Except.bind] at h
  | ok mi =>
      rw [hm] at h
      simp only [Bind.bind, Except.bind] at h
      cases hp : npIndex a.number.length mi with
      | none => rw [hp] at h; simp at h
      | some p =>
          rw [hp] at h
          simp only at h
          by_cases hv : val.length
              = (pyTake a.n_nuc_burn (a.number.getD p [])).length
          · rw [if_pos hv] at h
            simp only [Except.ok.injEq] at h
            refine ⟨mi, p, val, rfl, hp, hv, ?_⟩
            rw [hv]
            exact h.symm
          · rw [if_neg hv] at h
            by_cases h1 : val.length = 1
            · rw [if_pos h1] at h
              simp only [Except.ok.injEq] at h
              refine ⟨mi, p,
                List.replicate (pyTake a.n_nuc_burn
                  (a.number.getD p [])).length (val.getD 0 0),
                rfl, hp, List.length_replicate _ _, ?_⟩
              rw [List.length_replicate]
              exact h.symm
            · rw [if_neg h1] at h
              simp at h

/-- `set_mat_slice` preserves the frame and changes at most the
addressed row's burnable prefix. -/
theorem set_mat_slice_frame {a a2 : AtomNumber} {m : Idx}
    {val : List ℚ} (h : a.set_mat_slice m val = Except.ok a2) :
    AtomNumber.framePreserved a a2
    ∧ ∀ p q : Nat, a2.entry p q ≠ a.entry p q →
        a.matPos m = some p
        ∧ q < (pyTake a.n_nuc_burn (a.number.getD p [])).length := by
  obtain ⟨mi, p0, w, hm, hp, hw, rfl⟩ := set_mat_slice_ok_inv h
  have hplen : p0 < a.number.length := npIndex_lt hp
  have hklen : (pyTake a.n_nuc_burn (a.number.getD p0 [])).length
      ≤ (a.number.getD p0 []).length := by
    unfold pyTake
    split <;> simp [List.length_take]
  have hwle : w.length ≤ (a.number.getD p0 []).length := by
    rw [hw]
    exact hklen
  have hrowlen : (w ++ (a.number.getD p0 []).drop w.length).length
      = (a.number.getD p0 []).length := by
    rw [List.length_append, List.length_drop]
    omega
  refine ⟨⟨rfl, rfl, rfl, rfl,
    map_length_set_row _ _ _ hplen hrowlen⟩, ?_⟩
  intro p q hne
  unfold AtomNumber.entry at hne
  simp only at hne
  by_cases hpp : p = p0
  · subst hpp
    rw [getD_set_self _ _ _ _ hplen] at hne
    refine ⟨matPos_eq hm hp, ?_⟩
    by_contra hq
    push_neg at hq
    apply hne
    rw [getD_append_right _ _ _ _ (by omega), getD_drop]
    have hsum : w.length + (q - w.length) = q := by omega
    rw [hsum]
  · rw [getD_set_ne _ _ _ _ _ (fun he => hpp he.symm)] at hne
    exact absurd rfl hne

/-- If `npIndex` maps a cast natural number to a position, that position
is the number itself (the nonnegative branch applies). -/
theorem npIndex_natCast_eq {n i p : Nat}
    (h : npIndex n (i : Int) = some p) : p = i := by
  unfold npIndex at h
  split at h
  · simp only [Option.some.injEq] at h
    omega
  · split at h
    · rename_i h1 h2
      omega
    · exact absurd h (by simp)

/-- The `set_density` loop starting at row `i0` preserves the frame and
changes at most the burnable prefixes of rows `i0, …,
i0 + len(total_density) - 1`. -/
theorem setDensityAux_frame :
    ∀ (vals : List (List ℚ)) (a a2 : AtomNumber) (i0 : Nat),
      AtomNumber.setDensityAux a i0 vals = Except.ok a2 →
      AtomNumber.framePreserved a a2
      ∧ ∀ p q : Nat, a2.entry p q ≠ a.entry p q →
          (i0 ≤ p ∧ p < i0 + vals.length)
          ∧ q < (pyTake a.n_nuc_burn (a.number.getD p [])).length := by
  intro vals
  induction vals with
  | nil =>
      intro a a2 i0 h
      have ha : a = a2 := Except.ok.inj h
      subst ha
      exact ⟨⟨rfl, rfl, rfl, rfl, rfl⟩,
        fun p q hne => absurd rfl hne⟩
  | cons v rest ih =>
      intro a a2 i0 h
      unfold AtomNumber.setDensityAux at h
      cases h1 : a.set_mat_slice (Idx.pos (i0 : Int)) v with
      | error e => rw [h1] at h; simp [Bind.bind, Except.bind] at h
      | ok a1 =>
          rw [h1] at h
          simp only [Bind.bind, Except.bind] at h
          obtain ⟨hf1, he1⟩ := set_mat_slice_frame h1
          obtain ⟨hf2, he2⟩ := ih a1 a2 (i0 + 1) h
          have hframe : AtomNumber.framePreserved a a2 :=
            ⟨hf2.1.trans hf1.1, hf2.2.1.trans hf1.2.1,
             hf2.2.2.1.trans hf1.2.2.1,
             hf2.2.2.2.1.trans hf1.2.2.2.1,
             hf2.2.2.2.2.trans hf1.2.2.2.2⟩
          refine ⟨hframe, ?_⟩
          intro p q hne
          have hpy : (pyTake a1.n_nuc_burn (a1.number.getD p [])).length
              = (pyTake a.n_nuc_burn (a.number.getD p [])).length := by
            rw [hf1.2.2.2.1]
            exact pyTake_length_congr
              (row_length_of_map_length hf1.2.2.2.2 p)
          by_cases h12 : a2.entry p q = a1.entry p q
          · have hne1 : a1.entry p q ≠ a.entry p q := by
              rw [← h12]
              exact hne
            obtain ⟨hmp, hqb⟩ := he1 p q hne1
            have hmp2 : npIndex a.number.length (i0 : Int) = some p := hmp
            have hpi : p = i0 := npIndex_natCast_eq hmp2
            subst hpi
            exact ⟨⟨le_refl p, by simp⟩, hqb⟩
          · obtain ⟨hpb, hqb⟩ := he2 p q h12
            refine ⟨⟨by omega, by simp only [List.length_cons]; omega⟩, ?_⟩
            rw [← hpy]
            exact hqb

/-- C8: every write operation (`__setitem__`, `set_atom_density`,
`set_mat_slice`, `set_density`) leaves the two index dicts, the volume
table, the burnable count, and the quantity table's shape unchanged, and
mutates the quantity table only at the positions the call's arguments
resolve to (the single resolved cell for the scalar setters; the
addressed row's burnable prefix for `set_mat_slice`; the burnable
prefixes of rows `0..len(total_density)` for `set_density`).  Read
operations are embedded as pure functions of the state and by
construction mutate nothing, matching the source's reads, which only
index the arrays.  No operation writes the volume table after
construction. -/
theorem C8_frame (a : AtomNumber) :
    (∀ (m n : Idx) (v : ℚ) (a2 : AtomNumber),
        a.setItem m n v = Except.ok a2 →
        AtomNumber.framePreserved a a2
        ∧ ∀ p q : Nat, a2.entry p q ≠ a.entry p q →
            a.matPos m = some p ∧ a.nucPos p n = some q)
    ∧ (∀ (m n : Idx) (d : ℚ) (a2 : AtomNumber),
        a.set_atom_density m n d = Except.ok a2 →
        AtomNumber.framePreserved a a2
        ∧ ∀ p q : Nat, a2.entry p q ≠ a.entry p q →
            a.matPos m = some p ∧ a.nucPos p n = some q)
    ∧ (∀ (m : Idx) (val : List ℚ) (a2 : AtomNumber),
        a.set_mat_slice m val = Except.ok a2 →
        AtomNumber.framePreserved a a2
        ∧ ∀ p q : Nat, a2.entry p q ≠ a.entry p q →
            a.matPos m = some p
            ∧ q < (pyTake a.n_nuc_burn (a.number.getD p [])).length)
    ∧ (∀ (vals : List (List ℚ)) (a2 : AtomNumber),
        a.set_density vals = Except.ok a2 →
        AtomNumber.framePreserved a a2
        ∧ ∀ p q : Nat, a2.entry p q ≠ a.entry p q →
            p < vals.length
            ∧ q < (pyTake a.n_nuc_burn (a.number.getD p [])).length) := by
  refine ⟨fun m n v a2 h => setItem_frame h,
    fun m n d a2 h => set_atom_density_frame h,
    fun m val a2 h => set_mat_slice_frame h,
    fun vals a2 h => ?_⟩
  obtain ⟨hf, he⟩ := setDensityAux_frame vals a a2 0 h
  refine ⟨hf, ?_⟩
  intro p q hne
  obtain ⟨⟨_, hp⟩, hq⟩ := he p q hne
  exact ⟨by omega, hq⟩

/-- Concrete witness for C8: a single `__setitem__` on a fresh instance
preserves both index dicts, the volume table, the burnable count, and
the table shape. -/
theorem C8_witness :
    AtomNumber.framePreserved (AtomNumber.init ["1"] ["A", "B"] [] 1)
      (AtomNumber.mk [("1", 0)] [("A", 0), ("B", 1)] [1] 1 [[5, 0]]) :=
  ((C8_frame (AtomNumber.init ["1"] ["A", "B"] [] 1)).1 (Idx.name "1")
    (Idx.name "A") 5 _ (by rfl)).1
